import Mathlib

/-!
Shallow embedding of the approximate block-by-timestamp locator
(`findBlockByTimestamp` in
`src/Aula-02-dados-historicos-dune-the-graph/02-transaction-simulation/simulate-past-state.js`).

The JS routine performs a binary search over block numbers `[0, latestBlock.number]`:

```
let left = 0
let right = latestBlock.number
let closestBlock = null
while (left <= right) {
  const mid = Math.floor((left + right) / 2)
  const block = await provider.getBlock(mid)
  if (Math.abs(block.timestamp - targetTimestamp) < 15) {
    closestBlock = block
    break
  }
  if (block.timestamp < targetTimestamp) { left = mid + 1 } else { right = mid - 1 }
  if (!closestBlock || Math.abs(block.timestamp - targetTimestamp)
        < Math.abs(closestBlock.timestamp - targetTimestamp)) {
    closestBlock = block
  }
}
return closestBlock
```

We model the provider's `getBlock` (its timestamp field) as an explicit fetch
collaborator `f : Nat → Except ε Int` (an `await` that throws becomes
`Except.error`).  The `left` bound starts at 0 and only ever increases, so it is
a `Nat`; `right` may go to `-1`, so it is an `Int`.  The tolerance `15` is kept
as a parameter `tol` (the code hard-wires `15`; `findBlockByTimestamp` below
restores that constant).  The `while` loop is embedded with explicit fuel; the
initial fuel `(latest + 1).toNat` is the size of the initial window, and
`findGoF_fuel_ge` below proves any fuel of at least the window size gives the
same result, i.e. the loop always terminates within window-size iterations.
-/

/-- A block as the searcher sees it: its number and its timestamp. -/
structure Block where
  number : Nat
  timestamp : Int
deriving DecidableEq, Repr

/-- `Math.floor((left + right) / 2)`: the probe point of the current window.
Only evaluated when `(low : Int) ≤ high`, in which case both bounds are
non-negative and `Nat` division is exactly `Math.floor`. -/
def midOf (low : Nat) (high : Int) : Nat :=
  ((low : Int) + high).toNat / 2

/-- The bound adjustment of one loop iteration, given the probed timestamp:
`if (block.timestamp < targetTimestamp) left = mid + 1 else right = mid - 1`. -/
def nextWindow (target : Int) (low : Nat) (high : Int) (ts : Int) : Nat × Int :=
  if ts < target then (midOf low high + 1, high) else (low, (midOf low high : Int) - 1)

/-- The closest-block update:
`if (!closestBlock || |block.ts - target| < |closestBlock.ts - target|) closestBlock = block`.
The tracked best is replaced only on strict improvement. -/
def updateClosest (target : Int) (best : Option Block) (b : Block) : Option Block :=
  match best with
  | none => some b
  | some c => if |b.timestamp - target| < |c.timestamp - target| then some b else some c

/-- Measure of the search window `[low, high]`: the number of candidate blocks
still inside it. The loop runs exactly while it is positive. -/
def windowSize (low : Nat) (high : Int) : Nat :=
  (high + 1 - (low : Int)).toNat

/-- The `while (left <= right)` loop of `findBlockByTimestamp`, with explicit
fuel. A fetch failure (`await` throwing) aborts the whole search with that
error; a probe within tolerance (`|ts - target| < tol`) returns that block at
once; otherwise the window shrinks and the closest block seen is tracked. -/
def findGoF {ε : Type} (f : Nat → Except ε Int) (target tol : Int) :
    Nat → Nat → Int → Option Block → Except ε (Option Block)
  | 0, _low, _high, best => .ok best
  | fuel + 1, low, high, best =>
    if (low : Int) ≤ high then
      let mid := midOf low high
      match f mid with
      | .error e => .error e
      | .ok ts =>
        if |ts - target| < tol then
          .ok (some ⟨mid, ts⟩)
        else
          let lh := nextWindow target low high ts
          findGoF f target tol fuel lh.1 lh.2 (updateClosest target best ⟨mid, ts⟩)
    else .ok best

/-- `findBlockByTimestamp` with the tolerance generalized to a parameter:
binary search over `[0, latest]` starting from no closest block.  The fuel
`(latest + 1).toNat` is the size of the initial window, which
`findGoF_fuel_ge` shows is always enough for the loop to run to completion. -/
def findBlockByTimestampTol {ε : Type} (f : Nat → Except ε Int) (target tol latest : Int) :
    Except ε (Option Block) :=
  findGoF f target tol (latest + 1).toNat 0 latest none

/-- The locator exactly as in the source: tolerance hard-wired to 15 seconds. -/
def findBlockByTimestamp {ε : Type} (f : Nat → Except ε Int) (target latest : Int) :
    Except ε (Option Block) :=
  findBlockByTimestampTol f target 15 latest

/-- Instrumented copy of the loop, recording observable events of the very same
computation: the list of probed block numbers (in order), whether the run ended
through the in-tolerance early-exit branch, and the final `low`/`high` bounds.
A fetch failure carries the probes made up to and including the failing one.
`findGoT_erase` proves that erasing the instrumentation gives `findGoF` back. -/
def findGoT {ε : Type} (f : Nat → Except ε Int) (target tol : Int) :
    Nat → Nat → Int → Option Block → List Nat →
    Except (ε × List Nat) (Option Block × Bool × List Nat × Nat × Int)
  | 0, low, high, best, ps => .ok (best, false, ps, low, high)
  | fuel + 1, low, high, best, ps =>
    if (low : Int) ≤ high then
      let mid := midOf low high
      match f mid with
      | .error e => .error (e, ps ++ [mid])
      | .ok ts =>
        if |ts - target| < tol then
          .ok (some ⟨mid, ts⟩, true, ps ++ [mid], low, high)
        else
          let lh := nextWindow target low high ts
          findGoT f target tol fuel lh.1 lh.2 (updateClosest target best ⟨mid, ts⟩)
            (ps ++ [mid])
    else .ok (best, false, ps, low, high)

/-- Instrumented top-level locator (tolerance as a parameter). -/
def findBlockByTimestampT {ε : Type} (f : Nat → Except ε Int) (target tol latest : Int) :
    Except (ε × List Nat) (Option Block × Bool × List Nat × Nat × Int) :=
  findGoT f target tol (latest + 1).toNat 0 latest none []

/-! ### Basic facts about the window arithmetic -/

theorem midOf_ge (low : Nat) (high : Int) (h : (low : Int) ≤ high) :
    low ≤ midOf low high := by
  unfold midOf; omega

theorem midOf_le (low : Nat) (high : Int) (h : (low : Int) ≤ high) :
    (midOf low high : Int) ≤ high := by
  unfold midOf; omega

theorem windowSize_pos (low : Nat) (high : Int) (h : (low : Int) ≤ high) :
    1 ≤ windowSize low high := by
  unfold windowSize; omega

theorem windowSize_zero (low : Nat) (high : Int) (h : ¬ (low : Int) ≤ high) :
    windowSize low high = 0 := by
  unfold windowSize; omega

/-- Each non-early-exit iteration strictly shrinks the search window. -/
theorem nextWindow_size_lt (target : Int) (low : Nat) (high : Int) (ts : Int)
    (h : (low : Int) ≤ high) :
    windowSize (nextWindow target low high ts).1 (nextWindow target low high ts).2 <
      windowSize low high := by
  unfold nextWindow windowSize midOf
  split <;> simp <;> omega

/-! ### Fuel is irrelevant beyond the window size -/

/-- Any fuel of at least the window size computes the same result as fuel equal
to the window size: the loop always finishes within `windowSize` iterations. -/
theorem findGoT_fuel_ge {ε : Type} (f : Nat → Except ε Int) (target tol : Int) :
    ∀ (k fuel : Nat) (low : Nat) (high : Int) (best : Option Block) (ps : List Nat),
      windowSize low high ≤ k → windowSize low high ≤ fuel →
      findGoT f target tol fuel low high best ps =
        findGoT f target tol k low high best ps := by
  intro k
  induction k with
  | zero =>
    intro fuel low high best ps hk hfuel
    have hc : ¬ (low : Int) ≤ high := by
      intro h; have := windowSize_pos low high h; omega
    cases fuel with
    | zero => rfl
    | succ m => simp [findGoT, hc]
  | succ k ih =>
    intro fuel low high best ps hk hfuel
    by_cases hc : (low : Int) ≤ high
    · have hpos := windowSize_pos low high hc
      cases fuel with
      | zero => omega
      | succ m =>
        simp only [findGoT, hc, if_true]
        cases hf : f (midOf low high) with
        | error e => rfl
        | ok ts =>
          by_cases htol : |ts - target| < tol
          · simp [htol]
          · simp only [htol, if_false]
            have hlt := nextWindow_size_lt target low high ts hc
            exact ih m (nextWindow target low high ts).1 (nextWindow target low high ts).2
              (updateClosest target best ⟨midOf low high, ts⟩)
              (ps ++ [midOf low high]) (by omega) (by omega)
    · cases fuel with
      | zero => simp [findGoT, hc]
      | succ m => simp [findGoT, hc]

/-- Erasing the instrumentation of `findGoT` recovers `findGoF`: the two are
the same computation. -/
theorem findGoT_erase {ε : Type} (f : Nat → Except ε Int) (target tol : Int) :
    ∀ (fuel : Nat) (low : Nat) (high : Int) (best : Option Block) (ps : List Nat),
      findGoF f target tol fuel low high best =
        (match findGoT f target tol fuel low high best ps with
          | .error (e, _) => .error e
          | .ok (b, _, _, _, _) => .ok b) := by
  intro fuel
  induction fuel with
  | zero => intro low high best ps; rfl
  | succ m ih =>
    intro low high best ps
    by_cases hc : (low : Int) ≤ high
    · simp only [findGoF, findGoT, hc, if_true]
      cases hf : f (midOf low high) with
      | error e => rfl
      | ok ts =>
        by_cases htol : |ts - target| < tol
        · simp [htol]
        · simp only [htol, if_false]
          exact ih _ _ _ _
    · simp [findGoF, findGoT, hc]

/-- With enough fuel, a run that ends without the early exit ends because the
bounds crossed: the final bounds satisfy `high < low`. -/
theorem findGoT_exhaust {ε : Type} (f : Nat → Except ε Int) (target tol : Int) :
    ∀ (fuel : Nat) (low : Nat) (high : Int) (best : Option Block) (ps : List Nat)
      (r : Option Block) (qs : List Nat) (lo : Nat) (hi : Int),
      windowSize low high ≤ fuel →
      findGoT f target tol fuel low high best ps = .ok (r, false, qs, lo, hi) →
      hi < (lo : Int) := by
  intro fuel
  induction fuel with
  | zero =>
    intro low high best ps r qs lo hi hk heq
    simp only [findGoT, Except.ok.injEq, Prod.mk.injEq] at heq
    obtain ⟨-, -, -, h1, h2⟩ := heq
    have : ¬ (low : Int) ≤ high := by
      intro h; have := windowSize_pos low high h; omega
    omega
  | succ m ih =>
    intro low high best ps r qs lo hi hk heq
    by_cases hc : (low : Int) ≤ high
    · simp only [findGoT, hc, if_true] at heq
      cases hf : f (midOf low high) with
      | error e => rw [hf] at heq; simp at heq
      | ok ts =>
        rw [hf] at heq
        by_cases htol : |ts - target| < tol
        · simp [htol] at heq
        · simp only [htol, if_false] at heq
          have hlt := nextWindow_size_lt target low high ts hc
          exact ih _ _ _ _ _ _ _ _ (by omega) heq
    · simp only [findGoT, hc, if_false, Except.ok.injEq, Prod.mk.injEq] at heq
      obtain ⟨-, -, -, h1, h2⟩ := heq
      omega

/-- For a total (never-failing) fetch, any run of the loop appends some list of
new probes to the trace, and when it ends without the early exit the returned
candidate is the fold of the closest-block update over those probes. -/
theorem findGoT_total_fold {ε : Type} (ts : Nat → Int) (target tol : Int) :
    ∀ (fuel : Nat) (low : Nat) (high : Int) (best : Option Block) (ps : List Nat)
      (r : Option Block) (early : Bool) (qs : List Nat) (lo : Nat) (hi : Int),
      findGoT (fun n => (.ok (ts n) : Except ε Int)) target tol fuel low high best ps =
        .ok (r, early, qs, lo, hi) →
      ∃ new : List Nat, qs = ps ++ new ∧
        (early = false →
          r = new.foldl (fun acc m => updateClosest target acc ⟨m, ts m⟩) best) := by
  intro fuel
  induction fuel with
  | zero =>
    intro low high best ps r early qs lo hi heq
    simp only [findGoT, Except.ok.injEq, Prod.mk.injEq] at heq
    obtain ⟨h1, h2, h3, -, -⟩ := heq
    exact ⟨[], by simp [h3.symm], fun _ => by simp [h1.symm]⟩
  | succ m ih =>
    intro low high best ps r early qs lo hi heq
    by_cases hc : (low : Int) ≤ high
    · simp only [findGoT, hc, if_true] at heq
      by_cases htol : |ts (midOf low high) - target| < tol
      · simp only [htol, if_true, Except.ok.injEq, Prod.mk.injEq] at heq
        obtain ⟨-, h2, h3, -, -⟩ := heq
        exact ⟨[midOf low high], by simp [h3.symm], fun he => by rw [← h2] at he; cases he⟩
      · simp only [htol, if_false] at heq
        obtain ⟨new, hnew, hfold⟩ := ih _ _ _ _ _ _ _ _ _ heq
        refine ⟨midOf low high :: new, by simpa using hnew, fun he => ?_⟩
        simpa using hfold he
    · simp only [findGoT, hc, if_false, Except.ok.injEq, Prod.mk.injEq] at heq
      obtain ⟨h1, h2, h3, -, -⟩ := heq
      exact ⟨[], by simp [h3.symm], fun _ => by simp [h1.symm]⟩

/-- For a total fetch and a non-empty initial window (or an already-recorded
candidate), the loop always produces a block, and its number never exceeds the
upper bound `B` dominating the window and the recorded candidate. -/
theorem findGoF_total_some {ε : Type} (ts : Nat → Int) (target tol : Int) (B : Int) :
    ∀ (fuel : Nat) (low : Nat) (high : Int) (best : Option Block),
      windowSize low high ≤ fuel →
      high ≤ B →
      ((low : Int) ≤ high ∨ ∃ c, best = some c) →
      (∀ c, best = some c → (c.number : Int) ≤ B) →
      ∃ b : Block, findGoF (fun n => (.ok (ts n) : Except ε Int)) target tol fuel low high best =
          .ok (some b) ∧ (b.number : Int) ≤ B := by
  intro fuel
  induction fuel with
  | zero =>
    intro low high best hk hB hd hbound
    have hc : ¬ (low : Int) ≤ high := by
      intro h; have := windowSize_pos low high h; omega
    obtain ⟨c, hcsome⟩ := hd.resolve_left hc
    exact ⟨c, by simp [findGoF, hcsome], hbound c hcsome⟩
  | succ m ih =>
    intro low high best hk hB hd hbound
    by_cases hc : (low : Int) ≤ high
    · have hmid : (midOf low high : Int) ≤ B := le_trans (midOf_le low high hc) hB
      simp only [findGoF, hc, if_true]
      by_cases htol : |ts (midOf low high) - target| < tol
      · exact ⟨⟨midOf low high, ts (midOf low high)⟩, by simp [htol], hmid⟩
      · simp only [htol, if_false]
        have hlt := nextWindow_size_lt target low high (ts (midOf low high)) hc
        refine ih _ _ _ (by omega) ?_ ?_ ?_
        · unfold nextWindow
          split <;> simp <;> omega
        · right
          cases best with
          | none => exact ⟨_, rfl⟩
          | some c =>
            unfold updateClosest
            dsimp only
            split <;> exact ⟨_, rfl⟩
        · intro c hc'
          cases best with
          | none =>
            unfold updateClosest at hc'
            dsimp only at hc'
            cases hc'
            exact hmid
          | some c₀ =>
            unfold updateClosest at hc'
            dsimp only at hc'
            split at hc'
            · cases hc'; exact hmid
            · injection hc' with h2
              exact h2 ▸ hbound c₀ rfl
    · obtain ⟨c, hcsome⟩ := hd.resolve_left hc
      exact ⟨c, by simp [findGoF, hc, hcsome], hbound c hcsome⟩

/-- Invariant of the search: for a monotone chain and a total fetch, if the
current window still contains a block whose timestamp is strictly within
tolerance of the target, the loop ends in the early-exit branch and the block
it returns is strictly within tolerance. -/
theorem findGoT_hit {ε : Type} (ts : Nat → Int) (target tol : Int)
    (hmono : ∀ i j : Nat, i ≤ j → ts i ≤ ts j) :
    ∀ (fuel : Nat) (low : Nat) (high : Int) (best : Option Block) (ps : List Nat),
      windowSize low high ≤ fuel →
      (∃ n : Nat, low ≤ n ∧ (n : Int) ≤ high ∧ |ts n - target| < tol) →
      ∃ (m : Nat) (qs : List Nat) (lo : Nat) (hi : Int),
        findGoT (fun n => (.ok (ts n) : Except ε Int)) target tol fuel low high best ps =
          .ok (some ⟨m, ts m⟩, true, qs, lo, hi) ∧ |ts m - target| < tol := by
  intro fuel
  induction fuel with
  | zero =>
    intro low high best ps hk hex
    obtain ⟨n, hn1, hn2, -⟩ := hex
    have hc : (low : Int) ≤ high := le_trans (by exact_mod_cast hn1) hn2
    have := windowSize_pos low high hc
    omega
  | succ m ih =>
    intro low high best ps hk hex
    obtain ⟨n, hn1, hn2, hn3⟩ := hex
    have hc : (low : Int) ≤ high := le_trans (by exact_mod_cast hn1) hn2
    simp only [findGoT, hc, if_true]
    by_cases htol : |ts (midOf low high) - target| < tol
    · exact ⟨midOf low high, ps ++ [midOf low high], low, high, by simp [htol], htol⟩
    · simp only [htol, if_false]
      have habs := abs_lt.mp hn3
      have htol' : tol ≤ |ts (midOf low high) - target| := not_lt.mp htol
      have hlt := nextWindow_size_lt target low high (ts (midOf low high)) hc
      by_cases hdir : ts (midOf low high) < target
      · have hmlt : midOf low high < n := by
          by_contra hcon
          push_neg at hcon
          have hmn := hmono n (midOf low high) hcon
          rw [abs_of_neg (by omega)] at htol'
          omega
        have hnw : nextWindow target low high (ts (midOf low high)) =
            (midOf low high + 1, high) := by
          unfold nextWindow; rw [if_pos hdir]
        rw [hnw]
        exact ih _ _ _ _ (by rw [hnw] at hlt; omega) ⟨n, by omega, hn2, hn3⟩
      · push_neg at hdir
        have hmgt : n < midOf low high := by
          by_contra hcon
          push_neg at hcon
          have hmn := hmono (midOf low high) n hcon
          rw [abs_of_nonneg (by omega)] at htol'
          omega
        have hnw : nextWindow target low high (ts (midOf low high)) =
            (low, (midOf low high : Int) - 1) := by
          unfold nextWindow; rw [if_neg (not_lt.mpr hdir)]
        rw [hnw]
        exact ih _ _ _ _ (by rw [hnw] at hlt; omega) ⟨n, hn1, by omega, hn3⟩

/-- What the fold of the closest-block update computes: the result is at least
as close to the target as every folded probe and the starting candidate, and
it is either the starting candidate itself or the earliest folded probe
achieving the optimum (everything folded before it is strictly farther). -/
theorem foldl_updateClosest_spec (ts : Nat → Int) (target : Int) :
    ∀ (l : List Nat) (acc : Option Block) (b : Block),
      l.foldl (fun a m => updateClosest target a ⟨m, ts m⟩) acc = some b →
      (∀ m ∈ l, |b.timestamp - target| ≤ |ts m - target|) ∧
      (∀ c, acc = some c → |b.timestamp - target| ≤ |c.timestamp - target|) ∧
      (acc = some b ∨ ∃ l₁ l₂, l = l₁ ++ b.number :: l₂ ∧ b.timestamp = ts b.number ∧
        (∀ m ∈ l₁, |b.timestamp - target| < |ts m - target|) ∧
        (∀ c, acc = some c → |b.timestamp - target| < |c.timestamp - target|)) := by
  intro l
  induction l with
  | nil =>
    intro acc b h
    simp only [List.foldl_nil] at h
    refine ⟨by simp, ?_, Or.inl h⟩
    intro c hc
    rw [hc] at h
    injection h with h'
    rw [h']
  | cons m l ih =>
    intro acc b h
    simp only [List.foldl_cons] at h
    cases acc with
    | none =>
      have h' : l.foldl (fun a m => updateClosest target a ⟨m, ts m⟩) (some ⟨m, ts m⟩) =
          some b := by simpa [updateClosest] using h
      obtain ⟨P1, P2, P3⟩ := ih (some ⟨m, ts m⟩) b h'
      have hble : |b.timestamp - target| ≤ |ts m - target| := by
        simpa using P2 ⟨m, ts m⟩ rfl
      refine ⟨?_, by simp, Or.inr ?_⟩
      · intro m' hm'
        rcases List.mem_cons.mp hm' with h1 | h2
        · rw [h1]; exact hble
        · exact P1 m' h2
      · rcases P3 with hb | ⟨l₁, l₂, hdec, hts, hstrict, hstrictacc⟩
        · injection hb with hb'
          refine ⟨[], l, ?_, ?_, by simp, by simp⟩
          · simp [← hb']
          · rw [← hb']
        · refine ⟨m :: l₁, l₂, by rw [hdec]; rfl, hts, ?_, by simp⟩
          intro m' hm'
          rcases List.mem_cons.mp hm' with h1 | h2
          · rw [h1]; simpa using hstrictacc ⟨m, ts m⟩ rfl
          · exact hstrict m' h2
    | some c₀ =>
      by_cases hrep : |ts m - target| < |c₀.timestamp - target|
      · have h' : l.foldl (fun a m => updateClosest target a ⟨m, ts m⟩) (some ⟨m, ts m⟩) =
            some b := by simpa [updateClosest, hrep] using h
        obtain ⟨P1, P2, P3⟩ := ih (some ⟨m, ts m⟩) b h'
        have hble : |b.timestamp - target| ≤ |ts m - target| := by
          simpa using P2 ⟨m, ts m⟩ rfl
        refine ⟨?_, ?_, Or.inr ?_⟩
        · intro m' hm'
          rcases List.mem_cons.mp hm' with h1 | h2
          · rw [h1]; exact hble
          · exact P1 m' h2
        · intro c hc
          injection hc with hc'
          rw [← hc']
          exact le_trans hble (le_of_lt hrep)
        · rcases P3 with hb | ⟨l₁, l₂, hdec, hts, hstrict, hstrictacc⟩
          · injection hb with hb'
            refine ⟨[], l, by simp [← hb'], by rw [← hb'], by simp, ?_⟩
            intro c hc
            injection hc with hc'
            rw [← hc', ← hb']
            exact hrep
          · refine ⟨m :: l₁, l₂, by rw [hdec]; rfl, hts, ?_, ?_⟩
            · intro m' hm'
              rcases List.mem_cons.mp hm' with h1 | h2
              · rw [h1]; simpa using hstrictacc ⟨m, ts m⟩ rfl
              · exact hstrict m' h2
            · intro c hc
              injection hc with hc'
              rw [← hc']
              exact lt_trans (by simpa using hstrictacc ⟨m, ts m⟩ rfl) hrep
      · have h' : l.foldl (fun a m => updateClosest target a ⟨m, ts m⟩) (some c₀) =
            some b := by simpa [updateClosest, hrep] using h
        obtain ⟨P1, P2, P3⟩ := ih (some c₀) b h'
        have hble : |b.timestamp - target| ≤ |c₀.timestamp - target| := P2 c₀ rfl
        refine ⟨?_, ?_, ?_⟩
        · intro m' hm'
          rcases List.mem_cons.mp hm' with h1 | h2
          · rw [h1]; exact le_trans hble (not_lt.mp hrep)
          · exact P1 m' h2
        · intro c hc
          injection hc with hc'
          rw [← hc']
          exact hble
        · rcases P3 with hb | ⟨l₁, l₂, hdec, hts, hstrict, hstrictacc⟩
          · exact Or.inl hb
          · refine Or.inr ⟨m :: l₁, l₂, by rw [hdec]; rfl, hts, ?_, ?_⟩
            · intro m' hm'
              rcases List.mem_cons.mp hm' with h1 | h2
              · rw [h1]
                exact lt_of_lt_of_le (hstrictacc c₀ rfl) (not_lt.mp hrep)
              · exact hstrict m' h2
            · intro c hc
              injection hc with hc'
              rw [← hc']
              exact hstrictacc c₀ rfl

/-! ### Claims -/

/-- C1, counterexample to the claim as stated.  The code's early-exit test is
strict (`< 15`), not `≤ 15`.  With the monotone series `timestamp(n) = 100 n`,
`target = 115` and `latestBlockNumber = 10`, block 1 has timestamp difference
exactly 15, i.e. `≤ toleranceSeconds`, yet the run shown below never takes the
early-exit branch (the flag is `false`): it probes 5, 2, 0 and 1 and ends by
exhausting the window. -/
theorem tolerance_boundary_no_early_exit :
    findBlockByTimestampT (ε := Unit) (fun n => .ok (100 * (n : Int))) 115 15 10 =
      .ok (some ⟨1, 100⟩, false, [5, 2, 0, 1], 2, 1) ∧
    |100 * (1 : Int) - 115| ≤ 15 := by
  exact ⟨rfl, by decide⟩

/-- C1 (amended: the in-tolerance test is strict, `|timestamp(n) - target| < 15`).
For every monotone timestamp series, every `latestBlockNumber ≥ 0` and every
target: if some block `n` in `[0, latestBlockNumber]` has
`|timestamp(n) - target| < 15`, the locator ends through the in-tolerance
early-exit branch (before `low` exceeds `high`) and the block it returns has
absolute timestamp difference from the target strictly below 15. -/
theorem in_tolerance_early_exit {ε : Type} (ts : Nat → Int) (target latest : Int)
    (hmono : ∀ i j : Nat, i ≤ j → ts i ≤ ts j) (hlatest : 0 ≤ latest)
    (hex : ∃ n : Nat, (n : Int) ≤ latest ∧ |ts n - target| < 15) :
    ∃ (m : Nat) (qs : List Nat) (lo : Nat) (hi : Int),
      findBlockByTimestampT (fun n => (.ok (ts n) : Except ε Int)) target 15 latest =
        .ok (some ⟨m, ts m⟩, true, qs, lo, hi) ∧ |ts m - target| < 15 := by
  obtain ⟨n, hn1, hn2⟩ := hex
  unfold findBlockByTimestampT
  exact findGoT_hit ts target 15 hmono _ 0 latest none []
    (by unfold windowSize; omega) ⟨n, Nat.zero_le n, hn1, hn2⟩

/-- C1, witness: the 12-second series with `target = 6005` has block 500 within
strict tolerance, so the locator exits early within tolerance. -/
theorem in_tolerance_early_exit_w :
    ∃ (m : Nat) (qs : List Nat) (lo : Nat) (hi : Int),
      findBlockByTimestampT (ε := Unit) (fun n => .ok (12 * (n : Int))) 6005 15 1000 =
        .ok (some ⟨m, 12 * (m : Int)⟩, true, qs, lo, hi) ∧ |12 * (m : Int) - 6005| < 15 :=
  in_tolerance_early_exit (fun n => 12 * (n : Int)) 6005 1000
    (fun i j h => by dsimp only; omega) (by decide) ⟨500, by decide, by decide⟩

/-- C2, counterexample to the claim as stated.  The probe of block 5 returns a
timestamp whose difference from the target is exactly 15, i.e.
`≤ toleranceSeconds`, yet the locator does not return from that probe: it
fetches blocks 2 and 0 afterwards and never takes the early-exit branch,
because the code's test is strict (`< 15`). -/
theorem tolerance_boundary_probe_not_returned :
    findBlockByTimestampT (ε := Unit) (fun _ => .ok 15) 0 15 10 =
      .ok (some ⟨5, 15⟩, false, [5, 2, 0], 0, -1) ∧
    |(15 : Int) - 0| ≤ 15 := by
  exact ⟨rfl, by decide⟩

/-- C2 (amended: the in-tolerance test is strict, `< tol`).  For every probe of
the search: if the probed block `mid` satisfies
`|timestamp(mid) - targetTimestamp| < toleranceSeconds`, the locator returns
`mid` immediately from that probe through the early-exit branch, performing no
further fetches or bound adjustments. -/
theorem probe_within_tolerance_returns_immediately {ε : Type}
    (f : Nat → Except ε Int) (target tol : Int) (fuel low : Nat) (high : Int)
    (best : Option Block) (ps : List Nat) (t : Int)
    (hc : (low : Int) ≤ high) (hf : f (midOf low high) = .ok t)
    (htol : |t - target| < tol) :
    findGoT f target tol (fuel + 1) low high best ps =
      .ok (some ⟨midOf low high, t⟩, true, ps ++ [midOf low high], low, high) := by
  simp only [findGoT, hc, if_true]
  rw [hf]
  simp [htol]

/-- C2, witness: a first probe strictly within tolerance is returned at once,
after exactly one fetch. -/
theorem probe_within_tolerance_returns_immediately_w :
    findGoT (ε := Unit) (fun _ => .ok 5) 0 15 4 0 10 none [] =
      .ok (some ⟨5, 5⟩, true, [5], 0, 10) :=
  probe_within_tolerance_returns_immediately (fun _ => .ok 5) 0 15 3 0 10 none [] 5
    (by decide) rfl (by decide)

/-- C3: if the fetch collaborator fails on a probed block, the locator raises
that same failure to its caller immediately: exactly one further probe appears
in the trace (the failing one), no retry happens and no block is returned.  The
second conjunct is the very-first-probe instance: a fetch failing on the first
probe makes the whole call reject with that error after that single probe. -/
theorem fetch_failure_propagates {ε : Type} (f : Nat → Except ε Int)
    (target tol : Int) (e : ε) :
    (∀ (fuel low : Nat) (high : Int) (best : Option Block) (ps : List Nat),
      (low : Int) ≤ high → f (midOf low high) = .error e →
      findGoT f target tol (fuel + 1) low high best ps =
        .error (e, ps ++ [midOf low high])) ∧
    (∀ latest : Int, 0 ≤ latest → f (midOf 0 latest) = .error e →
      findBlockByTimestampT f target tol latest = .error (e, [midOf 0 latest])) := by
  have main : ∀ (fuel low : Nat) (high : Int) (best : Option Block) (ps : List Nat),
      (low : Int) ≤ high → f (midOf low high) = .error e →
      findGoT f target tol (fuel + 1) low high best ps =
        .error (e, ps ++ [midOf low high]) := by
    intro fuel low high best ps hc hf
    simp only [findGoT, hc, if_true]
    rw [hf]
  refine ⟨main, ?_⟩
  intro latest hlatest hf
  unfold findBlockByTimestampT
  have hk : (latest + 1).toNat = latest.toNat + 1 := by omega
  rw [hk]
  simpa using main latest.toNat 0 latest none [] (by omega) hf

/-- C3, witness: a fetch that throws on the very first probe makes the whole
call reject with that error, with a single probe in the trace. -/
theorem fetch_failure_propagates_w :
    findBlockByTimestampT (ε := Unit) (fun _ => .error ()) 0 15 10 = .error ((), [5]) :=
  (fetch_failure_propagates (fun _ => .error ()) 0 15 ()).2 10 (by decide) rfl

/-- C4: on the series `timestamp(n) = 12 n` with `latestBlockNumber = 1000` and
the code's 15-second tolerance, a target before genesis (`-100`) converges to
block 0 and a target after the head (`999999`) converges to block 1000. -/
theorem target_outside_range_converges_to_endpoint :
    findBlockByTimestamp (ε := Unit) (fun n => .ok (12 * (n : Int))) (-100) 1000 =
      .ok (some ⟨0, 0⟩) ∧
    findBlockByTimestamp (ε := Unit) (fun n => .ok (12 * (n : Int))) 999999 1000 =
      .ok (some ⟨1000, 12000⟩) :=
  ⟨rfl, rfl⟩

/-- C5: on the series `timestamp(n) = 12 n` with `latestBlockNumber = 1000` and
the code's 15-second tolerance, the locator returns block 500 both for the
exact-match target 6000 and for the within-tolerance target 6005. -/
theorem synthetic_series_returns_block_500 :
    findBlockByTimestamp (ε := Unit) (fun n => .ok (12 * (n : Int))) 6000 1000 =
      .ok (some ⟨500, 6000⟩) ∧
    findBlockByTimestamp (ε := Unit) (fun n => .ok (12 * (n : Int))) 6005 1000 =
      .ok (some ⟨500, 6000⟩) :=
  ⟨rfl, rfl⟩

/-- C6, counterexample to the claim as stated.  A negative `toleranceSeconds`
is not rejected before probing: with `toleranceSeconds = -1` and
`latestBlockNumber = 0` the search still probes block 0 (one fetch appears in
the trace) and returns it, instead of rejecting the call. -/
theorem negative_tolerance_still_probes :
    findBlockByTimestampT (ε := Unit) (fun _ => .ok 0) 0 (-1) 0 =
      .ok (some ⟨0, 0⟩, false, [0], 0, -1) :=
  rfl

/-- C6 (amended: only the `latestBlockNumber < 0` half; a negative
`toleranceSeconds` does not cause rejection before probing).  For
`latestBlockNumber < 0` the locator performs zero calls to the fetch
collaborator (empty probe trace) and yields the explicit not-found outcome
(`none`) rather than a block number. -/
theorem negative_latest_rejected_without_probing {ε : Type}
    (f : Nat → Except ε Int) (target tol latest : Int) (hlatest : latest < 0) :
    findBlockByTimestampT f target tol latest = .ok (none, false, [], 0, latest) := by
  unfold findBlockByTimestampT
  have hk : (latest + 1).toNat = 0 := by omega
  rw [hk]
  rfl

/-- C6, witness: with `latestBlockNumber = -3` the call makes no probe and
reports not-found. -/
theorem negative_latest_rejected_without_probing_w :
    findBlockByTimestampT (ε := Unit) (fun _ => .ok 0) 7 15 (-3) =
      .ok (none, false, [], 0, -3) :=
  negative_latest_rejected_without_probing (fun _ => .ok 0) 7 15 (-3) (by decide)

/-- C7: the search terminates for every target, bound and fetch function.
First conjunct: fuel beyond the window size never changes the result, i.e. the
loop completes within `windowSize low high` iterations.  Second conjunct: every
non-early-exit step strictly shrinks the window.  Third conjunct: when the loop
ends without the early exit, the final bounds satisfy `low > high`. -/
theorem search_terminates {ε : Type} (f : Nat → Except ε Int) (target tol : Int)
    (low : Nat) (high : Int) (best : Option Block) (ps : List Nat) :
    (∀ fuel : Nat, windowSize low high ≤ fuel →
      findGoT f target tol fuel low high best ps =
        findGoT f target tol (windowSize low high) low high best ps) ∧
    (∀ t : Int, (low : Int) ≤ high →
      windowSize (nextWindow target low high t).1 (nextWindow target low high t).2 <
        windowSize low high) ∧
    (∀ (fuel : Nat) (r : Option Block) (qs : List Nat) (lo : Nat) (hi : Int),
      windowSize low high ≤ fuel →
      findGoT f target tol fuel low high best ps = .ok (r, false, qs, lo, hi) →
      hi < (lo : Int)) :=
  ⟨fun fuel hf => findGoT_fuel_ge f target tol (windowSize low high) fuel low high best ps
      le_rfl hf,
   fun t hc => nextWindow_size_lt target low high t hc,
   fun fuel r qs lo hi hf heq => findGoT_exhaust f target tol fuel low high best ps r qs
      lo hi hf heq⟩

/-- C7, witness: on a concrete exhausting run, extra fuel is irrelevant, one
step shrinks the window, and the final bounds are crossed. -/
theorem search_terminates_w :
    (findGoT (ε := Unit) (fun _ => .ok 100) 0 15 20 0 10 none [] =
      findGoT (ε := Unit) (fun _ => .ok 100) 0 15 (windowSize 0 10) 0 10 none []) ∧
    (windowSize (nextWindow 0 0 10 100).1 (nextWindow 0 0 10 100).2 < windowSize 0 10) ∧
    ((-1 : Int) < ((0 : Nat) : Int)) := by
  obtain ⟨h1, h2, h3⟩ := search_terminates (ε := Unit) (fun _ => .ok 100) 0 15 0 10 none []
  exact ⟨h1 20 (by decide), h2 100 (by decide),
    h3 11 (some ⟨5, 100⟩) [5, 2, 0] 0 (-1) (by decide) rfl⟩

/-- C8: the locator is deterministic: two calls with identical target,
identical latest block and fetch functions that agree on every block return
the same result. -/
theorem deterministic_fetch_same_result {ε : Type} (f g : Nat → Except ε Int)
    (target tol latest : Int) (h : ∀ n : Nat, f n = g n) :
    findBlockByTimestampTol f target tol latest =
      findBlockByTimestampTol g target tol latest := by
  rw [funext h]

/-- C8, witness: two syntactically different but extensionally equal fetch
functions give the same block. -/
theorem deterministic_fetch_same_result_w :
    findBlockByTimestampTol (ε := Unit) (fun n => .ok (12 * (n : Int))) 6000 15 1000 =
      findBlockByTimestampTol (ε := Unit) (fun n => .ok ((n : Int) * 12)) 6000 15 1000 :=
  deterministic_fetch_same_result (fun n => .ok (12 * (n : Int)))
    (fun n => .ok ((n : Int) * 12)) 6000 15 1000 (fun n => by dsimp only; rw [Int.mul_comm])

/-- C9: for every `latestBlockNumber ≥ 0` and every total (never-failing)
fetch, the locator returns a block (never the not-found outcome), and the
returned block's number lies in the initial window `[0, latestBlockNumber]`
(the lower bound holds because block numbers are naturals). -/
theorem total_fetch_always_finds_block {ε : Type} (ts : Nat → Int)
    (target tol latest : Int) (hlatest : 0 ≤ latest) :
    ∃ b : Block,
      findBlockByTimestampTol (fun n => (.ok (ts n) : Except ε Int)) target tol latest =
        .ok (some b) ∧ (b.number : Int) ≤ latest := by
  unfold findBlockByTimestampTol
  exact findGoF_total_some ts target tol latest _ 0 latest none
    (by unfold windowSize; omega) le_rfl (Or.inl (by exact_mod_cast hlatest))
    (fun c hc => by cases hc)

/-- C9, witness: a concrete total fetch on `[0, 1000]` yields a block with
number at most 1000. -/
theorem total_fetch_always_finds_block_w :
    ∃ b : Block,
      findBlockByTimestampTol (ε := Unit) (fun n => .ok (12 * (n : Int))) 999999 15 1000 =
        .ok (some b) ∧ (b.number : Int) ≤ 1000 :=
  total_fetch_always_finds_block (fun n => 12 * (n : Int)) 999999 15 1000 (by decide)

/-- C10: when the search runs to exhaustion (no early exit), the returned block
is one of the probed blocks, carries that block's fetched timestamp, every
probe made before it is strictly farther from the target (so ties are resolved
to the earliest probe: the tracked best is replaced only on strict
improvement), and no probe at all is strictly closer. -/
theorem exhausted_search_returns_earliest_closest_probe {ε : Type} (ts : Nat → Int)
    (target tol latest : Int) (b : Block) (qs : List Nat) (lo : Nat) (hi : Int)
    (heq : findBlockByTimestampT (fun n => (.ok (ts n) : Except ε Int)) target tol latest =
      .ok (some b, false, qs, lo, hi)) :
    b.timestamp = ts b.number ∧
    (∃ l₁ l₂ : List Nat, qs = l₁ ++ b.number :: l₂ ∧
      ∀ m ∈ l₁, |b.timestamp - target| < |ts m - target|) ∧
    (∀ m ∈ qs, |b.timestamp - target| ≤ |ts m - target|) := by
  unfold findBlockByTimestampT at heq
  obtain ⟨new, hnew, hfold⟩ :=
    findGoT_total_fold ts target tol (latest + 1).toNat 0 latest none [] (some b) false qs
      lo hi heq
  have hqs : qs = new := by simpa using hnew
  have hfold' : new.foldl (fun acc m => updateClosest target acc ⟨m, ts m⟩) none =
      some b := (hfold rfl).symm
  obtain ⟨P1, -, P3⟩ := foldl_updateClosest_spec ts target new none b hfold'
  rcases P3 with hb | ⟨l₁, l₂, hdec, hts, hstrict, -⟩
  · cases hb
  · exact ⟨hts, ⟨l₁, l₂, by rw [hqs, hdec], hstrict⟩, by rw [hqs]; exact P1⟩

/-- C10, witness: in the exhausting run on `timestamp(n) = 100 n` with target
115, the returned block 1 was probed, is closest among the probes 5, 2, 0, 1,
and every earlier probe is strictly farther. -/
theorem exhausted_search_returns_earliest_closest_probe_w :
    (Block.timestamp ⟨1, 100⟩ = 100 * ((Block.number ⟨1, 100⟩ : Nat) : Int)) ∧
    (∃ l₁ l₂ : List Nat, [5, 2, 0, 1] = l₁ ++ (Block.number ⟨1, 100⟩) :: l₂ ∧
      ∀ m ∈ l₁, |Block.timestamp ⟨1, 100⟩ - 115| < |100 * (m : Int) - 115|) ∧
    (∀ m ∈ ([5, 2, 0, 1] : List Nat),
      |Block.timestamp ⟨1, 100⟩ - 115| ≤ |100 * (m : Int) - 115|) :=
  exhausted_search_returns_earliest_closest_probe (ε := Unit)
    (fun n => 100 * (n : Int)) 115 15 10 ⟨1, 100⟩ [5, 2, 0, 1] 2 1 (by rfl)
